import Mathlib

/-!
Shallow embedding of the `kstore` log-structured key-value store
(`src/lib.rs`, struct `ActionKv`) together with proofs about its
specified behaviour.

Modelling conventions:
* Bytes are `Nat`s; a file is a `List Nat` of its bytes in order.
* The `File` handle of the Rust code is modelled by the pair
  (`file`, `cursor`): the file's contents and the current seek position.
  The file is opened with `append(true)`, so all writes land at the end
  of the file regardless of the cursor.
* The in-memory `HashMap<ByteString, u64>` index is modelled as an
  association list; `insert` prepends a binding and `List.lookup`
  returns the most recently inserted binding for a key, which is
  extensionally the behaviour of `HashMap::insert` / `HashMap::get`.
* Fallible paths return `Except`.  The constructor `RecordError.eof`
  models `io::ErrorKind::UnexpectedEof`; `RecordError.corruptionPanic`
  models the `panic!("data corruption ...")` call in `process_record`
  (an abnormal termination, not a value returned to the caller); and
  `RecordError.splitPanic` models the out-of-bounds panic of
  `Vec::split_off` when `key_len` exceeds the bytes actually read.
-/

/-- One shift-and-conditionally-xor round of the MSB-first CRC-32 with
polynomial 0x04C11DB7, kept in 32 bits.  This is the bit-level algorithm
realised by `Crc::<u32>::new(&crc::CRC_32_CKSUM)` (poly 0x04C11DB7,
init 0, no reflection, xorout 0xFFFFFFFF). -/
def crc32Round (c : Nat) : Nat :=
  if 2147483648 ≤ c then (c * 2) % 4294967296 ^^^ 0x04C11DB7
  else (c * 2) % 4294967296

/-- Feed one byte (taken mod 256, as in `u8`) into the CRC state:
xor it into the top byte, then run eight rounds. -/
def crc32FeedByte (c b : Nat) : Nat :=
  let c0 := c ^^^ ((b % 256) * 16777216)
  let c1 := crc32Round c0
  let c2 := crc32Round c1
  let c3 := crc32Round c2
  let c4 := crc32Round c3
  let c5 := crc32Round c4
  let c6 := crc32Round c5
  let c7 := crc32Round c6
  crc32Round c7

/-- `crc32.checksum(data)` for the `CRC_32_CKSUM` parameters used by the
source on every encode and decode: init 0, process each byte MSB first,
xor the final state with 0xFFFFFFFF. -/
def crc32cksum (data : List Nat) : Nat :=
  (data.foldl crc32FeedByte 0) ^^^ 0xFFFFFFFF

/-- The four little-endian bytes of the low 32 bits of `n`; this is
`write_u32::<LittleEndian>(n)` (the `as u32` truncation is inherent
because only the low 32 bits contribute). -/
def u32leBytes (n : Nat) : List Nat :=
  [n % 256, n / 256 % 256, n / 65536 % 256, n / 16777216 % 256]

/-- `read_u32::<LittleEndian>`: consume four bytes and combine them
little-endian; with fewer than four bytes left it fails with
`UnexpectedEof` (modelled as `none`). -/
def readU32 : List Nat → Option (Nat × List Nat)
  | b0 :: b1 :: b2 :: b3 :: rest =>
      some (b0 + 256 * b1 + 65536 * b2 + 16777216 * b3, rest)
  | _ => none

/-- The `KeyValuePair` struct of the source. -/
structure KeyValuePair where
  key : List Nat
  value : List Nat
deriving DecidableEq, Repr

/-- Abnormal outcomes of decoding a record.  `eof` is
`io::ErrorKind::UnexpectedEof`; the two panic constructors model calls
of `panic!` (data-corruption check) and the `Vec::split_off`
out-of-bounds panic — both terminate the program rather than being
returned as Rust error values. -/
inductive RecordError where
  | eof
  | corruptionPanic
  | splitPanic
deriving DecidableEq, Repr

/-- I/O failures. `notFound` is the `ErrorKind::NotFound` produced by
opening a path with no file behind it; the other constructors stand for
failures of primitive reads/writes/seeks. -/
inductive IoError where
  | notFound
  | writeFailed
  | readFailed
deriving DecidableEq, Repr

/-- The in-memory index `HashMap<ByteString, u64>`, as an association
list from key bytes to a file offset. -/
abbrev Index := List (List Nat × Nat)

/-- The `ActionKv` struct: the owned file handle (contents plus seek
position) and the index. -/
structure ActionKv where
  file : List Nat
  cursor : Nat
  index : Index
deriving DecidableEq, Repr

namespace ActionKv

/-- `ActionKv::open`.  The source opens with
`OpenOptions::new().read(true).write(true).append(true)` — note there is
no `create(true)` — so a missing file yields `ErrorKind::NotFound`.  On
success the cursor is at byte 0 and the index is empty; no content is
read.  The filesystem at `path` is modelled by `fs`: `none` when no file
exists there, `some contents` otherwise. -/
def openStore (fs : Option (List Nat)) : Except IoError ActionKv :=
  match fs with
  | none => .error .notFound
  | some contents => .ok { file := contents, cursor := 0, index := [] }

/-- `ActionKv::process_record`, reading from the byte stream `s`:
read the stored checksum, key length and value length (4 bytes each,
little-endian), read up to `key_len + value_len` payload bytes (the
`Result` of `read_to_end` is discarded in the source, and `read_to_end`
reports a short read at end of stream as success, so a truncated
payload flows onward), recompute the checksum over the bytes actually
read and `panic!` on mismatch, then `split_off` the payload at
`key_len` (which panics when fewer than `key_len` bytes were read).
On success, returns the pair and the unconsumed rest of the stream. -/
def process_record (s : List Nat) : Except RecordError (KeyValuePair × List Nat) :=
  match readU32 s with
  | none => .error .eof
  | some (saved_checksum, s1) =>
    match readU32 s1 with
    | none => .error .eof
    | some (key_len, s2) =>
      match readU32 s2 with
      | none => .error .eof
      | some (value_len, s3) =>
        let data_len := (key_len + value_len) % 4294967296
        let data := s3.take data_len
        let checksum := crc32cksum data
        if checksum ≠ saved_checksum then
          .error .corruptionPanic
        else if key_len ≤ data.length then
          .ok (⟨data.take key_len, data.drop key_len⟩, s3.drop data_len)
        else
          .error .splitPanic

/-- The byte sequence that `insert_but_ignore_index` writes for one
record: checksum over `key ++ value`, key length, value length (each as
a little-endian `u32`; lengths are truncated by `as u32`), then the
payload bytes. -/
def encodeRecord (key value : List Nat) : List Nat :=
  u32leBytes (crc32cksum (key ++ value)) ++
    u32leBytes key.length ++ u32leBytes value.length ++ (key ++ value)

/-- The replay loop body of `ActionKv::load`: repeatedly note the
current position, decode one record, and on success insert
`key ↦ position` into the index.  `UnexpectedEof` breaks the loop
normally; the panic outcomes propagate.  The source never repositions
the reader, so the scan begins wherever `s` begins. -/
def loadLoop (s : List Nat) (pos : Nat) (idx : Index) : Except RecordError Index :=
  match h : process_record s with
  | .error .eof => .ok idx
  | .error e => .error e
  | .ok (kv, rest) =>
      loadLoop rest (pos + (s.length - rest.length)) ((kv.key, pos) :: idx)
termination_by s.length
decreasing_by
  simp_wf
  have hread : ∀ (l : List Nat) (a : Nat) (r : List Nat),
      readU32 l = some (a, r) → r.length + 4 = l.length := by
    intro l a r hh
    unfold readU32 at hh
    split at hh
    · cases hh; simp
    · exact absurd hh (by simp)
  unfold process_record at h
  split at h
  · exact Except.noConfusion h
  rename_i saved s1 hq1
  split at h
  · exact Except.noConfusion h
  rename_i kl s2 hq2
  split at h
  · exact Except.noConfusion h
  rename_i vl s3 hq3
  simp only [] at h
  split at h
  · exact Except.noConfusion h
  split at h
  · have e0 := hread s saved s1 hq1
    have e1 := hread s1 kl s2 hq2
    have e2 := hread s2 vl s3 hq3
    injection h with h'
    injection h' with hk hr
    subst hr
    simp only [List.length_drop]
    omega
  · exact Except.noConfusion h

/-- `ActionKv::load`: run the replay loop starting at the current
cursor position (the source performs no initial seek, only
`seek(SeekFrom::Current(0))` at each iteration) over the existing
index.  A successful load leaves the underlying cursor at end of file
(the reader consumed the stream). -/
def load (st : ActionKv) : Except RecordError ActionKv :=
  match loadLoop (st.file.drop st.cursor) st.cursor st.index with
  | .error e => .error e
  | .ok idx => .ok { st with cursor := st.file.length, index := idx }

/-- `ActionKv::seek_to_end`: `self.f.seek(SeekFrom::End(0))`, returning
the end-of-file offset and leaving the cursor there. -/
def seek_to_end (st : ActionKv) : Nat × ActionKv :=
  (st.file.length, { st with cursor := st.file.length })

/-- `ActionKv::get_at`: seek to `position` and decode exactly one
record.  `UnexpectedEof` here is propagated to the caller with `?` (it
is a real error for a targeted read); the panic outcomes propagate as
panics.  The returned cursor reflects the `BufReader`'s read-ahead: the
single buffer fill pulls up to its 8192-byte capacity from the
underlying file (records larger than one fill would trigger further
refills, which nothing below observes). -/
def get_at (st : ActionKv) (position : Nat) : Except RecordError (KeyValuePair × ActionKv) :=
  match process_record (st.file.drop position) with
  | .error e => .error e
  | .ok (kv, _) => .ok (kv, { st with cursor := min (position + 8192) st.file.length })

/-- `ActionKv::get`: look the key up in the index; absent keys give
`Ok(None)`.  For a present key, read the record at the stored offset
and return its value — the decoded record's key is never compared with
the queried key. -/
def get (st : ActionKv) (key : List Nat) : Except RecordError (Option (List Nat) × ActionKv) :=
  match List.lookup key st.index with
  | none => .ok (none, st)
  | some position =>
    match get_at st position with
    | .error e => .error e
    | .ok (kv, st') => .ok (some kv.value, st')

/-- The value component of `get` (the store threading dropped), used to
state claims about what `get` returns. -/
def getValue (st : ActionKv) (key : List Nat) : Except RecordError (Option (List Nat)) :=
  (get st key).map (fun r => r.1)

/-- The scan loop of `ActionKv::find`: decode records from the stream,
remembering the position and value of the last one whose key equals
`target`; `UnexpectedEof` ends the scan normally.  As in `load`, the
source performs no initial seek, so the scan begins wherever `s`
begins. -/
def findLoop (s : List Nat) (pos : Nat) (target : List Nat)
    (found : Option (Nat × List Nat)) : Except RecordError (Option (Nat × List Nat)) :=
  match h : process_record s with
  | .error .eof => .ok found
  | .error e => .error e
  | .ok (kv, rest) =>
      findLoop rest (pos + (s.length - rest.length)) target
        (if kv.key = target then some (pos, kv.value) else found)
termination_by s.length
decreasing_by
  simp_wf
  have hread : ∀ (l : List Nat) (a : Nat) (r : List Nat),
      readU32 l = some (a, r) → r.length + 4 = l.length := by
    intro l a r hh
    unfold readU32 at hh
    split at hh
    · cases hh; simp
    · exact absurd hh (by simp)
  unfold process_record at h
  split at h
  · exact Except.noConfusion h
  rename_i saved s1 hq1
  split at h
  · exact Except.noConfusion h
  rename_i kl s2 hq2
  split at h
  · exact Except.noConfusion h
  rename_i vl s3 hq3
  simp only [] at h
  split at h
  · exact Except.noConfusion h
  split at h
  · have e0 := hread s saved s1 hq1
    have e1 := hread s1 kl s2 hq2
    have e2 := hread s2 vl s3 hq3
    injection h with h'
    injection h' with hk hr
    subst hr
    simp only [List.length_drop]
    omega
  · exact Except.noConfusion h

/-- `ActionKv::find`: scan from the current cursor position,
returning the offset and value of the last matching record seen.  A
completed scan leaves the cursor at end of file. -/
def find (st : ActionKv) (target : List Nat) :
    Except RecordError (Option (Nat × List Nat) × ActionKv) :=
  match findLoop (st.file.drop st.cursor) st.cursor target none with
  | .error e => .error e
  | .ok r => .ok (r, { st with cursor := st.file.length })

/-- The result component of `find` (the store threading dropped). -/
def findResult (st : ActionKv) (target : List Nat) :
    Except RecordError (Option (Nat × List Nat)) :=
  (find st target).map (fun r => r.1)

/-- `ActionKv::insert_but_ignore_index`: build the record bytes,
take `current_position = f.seek(SeekFrom::Current(0))` — the cursor
position BEFORE the subsequent `f.seek(SeekFrom::End(0))` — write the
record (which, with the `append(true)` file mode and the end seek,
lands at the end of the file and leaves the cursor at the new end), and
return `current_position`. -/
def insert_but_ignore_index (st : ActionKv) (key value : List Nat) : Nat × ActionKv :=
  let current_position := st.cursor
  let newFile := st.file ++ encodeRecord key value
  (current_position, { st with file := newFile, cursor := newFile.length })

/-- `ActionKv::insert`: append via `insert_but_ignore_index` and map
`key` to the position it returned. -/
def insert (st : ActionKv) (key value : List Nat) : ActionKv :=
  let r := insert_but_ignore_index st key value
  { r.2 with index := (key, r.1) :: r.2.index }

/-- `ActionKv::update` is literally `insert`. -/
def update (st : ActionKv) (key value : List Nat) : ActionKv :=
  insert st key value

/-- `ActionKv::delete` is `insert` with the empty value (a tombstone
record). -/
def delete (st : ActionKv) (key : List Nat) : ActionKv :=
  insert st key []

end ActionKv

/-- Per-call-site outcomes of the primitive file operations performed by
`insert_but_ignore_index`, in source order.  This lets the
error-propagation structure of the function be stated: the source
applies `?` to `seek(Current(0))`, `write_u32(checksum)` and
`write_all(payload)`, but discards the `Result`s of
`seek(SeekFrom::End(0))` and of the two length-field `write_u32`
calls. -/
structure InsertIoTrace where
  seek_current : Except IoError Nat
  seek_end : Except IoError Nat
  write_checksum : Except IoError Unit
  write_key_len : Except IoError Unit
  write_value_len : Except IoError Unit
  write_payload : Except IoError Unit
deriving Repr

/-- `insert_but_ignore_index` with each primitive file operation's
outcome supplied by `t`, propagating or discarding those outcomes
exactly where the source applies or omits `?`. -/
def insert_but_ignore_index_trace (t : InsertIoTrace) : Except IoError Nat :=
  match t.seek_current with
  | .error e => .error e
  | .ok current_position =>
    let _ := t.seek_end
    match t.write_checksum with
    | .error e => .error e
    | .ok _ =>
      let _ := t.write_key_len
      let _ := t.write_value_len
      match t.write_payload with
      | .error e => .error e
      | .ok _ => .ok current_position

/-- A log file as a list of (key, value) records, encoded by
concatenating their `encodeRecord` byte sequences. -/
def encodeLog : List (List Nat × List Nat) → List Nat
  | [] => []
  | (k, v) :: rest => ActionKv.encodeRecord k v ++ encodeLog rest

/-- Every record's combined key and value length fits the 32-bit length
fields (the spec's "representable lengths"). -/
def recsRepresentable (recs : List (List Nat × List Nat)) : Prop :=
  ∀ p ∈ recs, p.1.length + p.2.length < 4294967296

instance (recs : List (List Nat × List Nat)) : Decidable (recsRepresentable recs) :=
  List.decidableBAll _ recs

/-- The index that replaying `recs` from offset `pos` over `idx`
accumulates: each record contributes `key ↦ its offset`, later records
shadowing earlier bindings. -/
def replayList : List (List Nat × List Nat) → Nat → Index → Index
  | [], _, idx => idx
  | (k0, v0) :: rest, pos, idx =>
      replayList rest (pos + (12 + k0.length + v0.length)) ((k0, pos) :: idx)

/-- The accumulator that scanning `recs` from offset `pos` for `target`
threads: the offset and value of the last matching record seen so
far. -/
def findAccum : List (List Nat × List Nat) → Nat → List Nat →
    Option (Nat × List Nat) → Option (Nat × List Nat)
  | [], _, _, found => found
  | (k0, v0) :: rest, pos, target, found =>
      findAccum rest (pos + (12 + k0.length + v0.length)) target
        (if k0 = target then some (pos, v0) else found)

/-- Decidable equality for `Except`, so closed runs of the store
operations can be settled by `decide`. -/
instance {ε : Type u} {α : Type v} [DecidableEq ε] [DecidableEq α] :
    DecidableEq (Except ε α) := fun x y =>
  match x, y with
  | .ok a, .ok b =>
      if h : a = b then .isTrue (by rw [h]) else .isFalse (fun hc => h (Except.ok.inj hc))
  | .error a, .error b =>
      if h : a = b then .isTrue (by rw [h]) else .isFalse (fun hc => h (Except.error.inj hc))
  | .ok _, .error _ => .isFalse (fun hc => Except.noConfusion hc)
  | .error _, .ok _ => .isFalse (fun hc => Except.noConfusion hc)

/-- Spec-side view (transcribed from the spec's words, for comparison
with the source-derived definitions): the offset of the LAST record of
the log with the given key — the "latest record per key" view, where a
record occupies 12 header bytes plus its payload and the log starts at
offset `base`; `none` when no record has that key. -/
def specLatestOffset : List (List Nat × List Nat) → Nat → List Nat → Option Nat
  | [], _, _ => none
  | (k0, v0) :: rest, base, k =>
    match specLatestOffset rest (base + (12 + k0.length + v0.length)) k with
    | some o => some o
    | none => if k0 = k then some base else none

/-- Spec-side view: the offset AND value of the last record of the log
with the given key, as the spec describes `find`'s result. -/
def specLatestPair : List (List Nat × List Nat) → Nat → List Nat → Option (Nat × List Nat)
  | [], _, _ => none
  | (k0, v0) :: rest, base, k =>
    match specLatestPair rest (base + (12 + k0.length + v0.length)) k with
    | some r => some r
    | none => if k0 = k then some (base, v0) else none

open ActionKv

/-! ## Helper lemmas -/

theorem crc32Round_lt (c : Nat) : crc32Round c < 4294967296 := by
  have h32 : (4294967296 : Nat) = 2 ^ 32 := by norm_num
  unfold crc32Round
  split
  · rw [h32]
    exact Nat.xor_lt_two_pow (h32 ▸ Nat.mod_lt _ (by norm_num)) (by norm_num)
  · exact Nat.mod_lt _ (by norm_num)

theorem crc32FeedByte_lt (c b : Nat) : crc32FeedByte c b < 4294967296 :=
  crc32Round_lt _

theorem foldl_crc32FeedByte_lt (l : List Nat) :
    ∀ c, c < 4294967296 → l.foldl crc32FeedByte c < 4294967296 := by
  induction l with
  | nil => intro c hc; simpa using hc
  | cons b rest ih =>
      intro c _
      rw [List.foldl_cons]
      exact ih _ (crc32FeedByte_lt c b)

theorem crc32cksum_lt (l : List Nat) : crc32cksum l < 4294967296 := by
  have h32 : (4294967296 : Nat) = 2 ^ 32 := by norm_num
  unfold crc32cksum
  rw [h32]
  exact Nat.xor_lt_two_pow (h32 ▸ foldl_crc32FeedByte_lt l 0 (by norm_num)) (by norm_num)

theorem readU32_u32le (n : Nat) (rest : List Nat) (h : n < 4294967296) :
    readU32 (u32leBytes n ++ rest) = some (n, rest) := by
  simp only [u32leBytes, List.cons_append, List.nil_append, readU32]
  have : n % 256 + 256 * (n / 256 % 256) + 65536 * (n / 65536 % 256) +
      16777216 * (n / 16777216 % 256) = n := by omega
  rw [this]

theorem encodeRecord_length (k v : List Nat) :
    (encodeRecord k v).length = 12 + k.length + v.length := by
  simp [encodeRecord, u32leBytes]
  omega

theorem process_record_encode (k v rest : List Nat)
    (h : k.length + v.length < 4294967296) :
    process_record (encodeRecord k v ++ rest) = .ok (⟨k, v⟩, rest) := by
  have hk : k.length < 4294967296 := by omega
  have hv : v.length < 4294967296 := by omega
  have hcrc : crc32cksum (k ++ v) < 4294967296 := crc32cksum_lt _
  have hmod : (k.length + v.length) % 4294967296 = k.length + v.length :=
    Nat.mod_eq_of_lt h
  have hklen : k.length + v.length = (k ++ v).length := by simp
  have htake : List.take (k.length + v.length) (k ++ (v ++ rest)) = k ++ v := by
    rw [← List.append_assoc, hklen, List.take_left]
  have hdrop : List.drop (k.length + v.length) (k ++ (v ++ rest)) = rest := by
    rw [← List.append_assoc, hklen, List.drop_left]
  unfold process_record encodeRecord
  simp only [List.append_assoc]
  rw [readU32_u32le _ _ hcrc]
  simp only []
  rw [readU32_u32le _ _ hk]
  simp only []
  rw [readU32_u32le _ _ hv]
  simp only [hmod, htake, hdrop]
  rw [if_neg (by simp)]
  rw [if_pos (by simp)]
  rw [List.take_left, List.drop_left]

theorem loadLoop_eof (s : List Nat) (pos : Nat) (idx : Index)
    (h : process_record s = .error .eof) : loadLoop s pos idx = .ok idx := by
  rw [loadLoop]
  split
  · rfl
  · rename_i e hne heq
    rw [h] at heq
    cases heq
    exact absurd rfl hne
  · rename_i kv rest heq
    rw [h] at heq
    exact Except.noConfusion heq

theorem loadLoop_ok (s : List Nat) (pos : Nat) (idx : Index) (kv : KeyValuePair)
    (rest : List Nat) (h : process_record s = .ok (kv, rest)) :
    loadLoop s pos idx =
      loadLoop rest (pos + (s.length - rest.length)) ((kv.key, pos) :: idx) := by
  rw [loadLoop]
  split
  · rename_i heq
    rw [h] at heq
    exact Except.noConfusion heq
  · rename_i e hne heq
    rw [h] at heq
    exact Except.noConfusion heq
  · rename_i kv' rest' heq
    rw [h] at heq
    injection heq with h'
    injection h' with h1 h2
    subst h1; subst h2
    rfl

theorem findLoop_eof (s : List Nat) (pos : Nat) (target : List Nat)
    (found : Option (Nat × List Nat)) (h : process_record s = .error .eof) :
    findLoop s pos target found = .ok found := by
  rw [findLoop]
  split
  · rfl
  · rename_i e hne heq
    rw [h] at heq
    cases heq
    exact absurd rfl hne
  · rename_i kv rest heq
    rw [h] at heq
    exact Except.noConfusion heq

theorem findLoop_ok (s : List Nat) (pos : Nat) (target : List Nat)
    (found : Option (Nat × List Nat)) (kv : KeyValuePair) (rest : List Nat)
    (h : process_record s = .ok (kv, rest)) :
    findLoop s pos target found =
      findLoop rest (pos + (s.length - rest.length)) target
        (if kv.key = target then some (pos, kv.value) else found) := by
  rw [findLoop]
  split
  · rename_i heq
    rw [h] at heq
    exact Except.noConfusion heq
  · rename_i e hne heq
    rw [h] at heq
    exact Except.noConfusion heq
  · rename_i kv' rest' heq
    rw [h] at heq
    injection heq with h'
    injection h' with h1 h2
    subst h1; subst h2
    rfl

theorem loadLoop_panic (s : List Nat) (pos : Nat) (idx : Index) (e : RecordError)
    (hne : e ≠ RecordError.eof) (h : process_record s = .error e) :
    loadLoop s pos idx = .error e := by
  rw [loadLoop]
  split
  · rename_i heq
    rw [h] at heq
    injection heq with h'
    exact absurd h' hne
  · rename_i e' hne' heq
    rw [h] at heq
    injection heq with h'
    rw [h']
  · rename_i kv rest heq
    rw [h] at heq
    exact Except.noConfusion heq

theorem findLoop_panic (s : List Nat) (pos : Nat) (target : List Nat)
    (found : Option (Nat × List Nat)) (e : RecordError)
    (hne : e ≠ RecordError.eof) (h : process_record s = .error e) :
    findLoop s pos target found = .error e := by
  rw [findLoop]
  split
  · rename_i heq
    rw [h] at heq
    injection heq with h'
    exact absurd h' hne
  · rename_i e' hne' heq
    rw [h] at heq
    injection heq with h'
    rw [h']
  · rename_i kv rest heq
    rw [h] at heq
    exact Except.noConfusion heq

theorem load_result (st : ActionKv) (idx : Index)
    (h : loadLoop (st.file.drop st.cursor) st.cursor st.index = .ok idx) :
    load st = .ok { st with cursor := st.file.length, index := idx } := by
  unfold ActionKv.load
  rw [h]

theorem load_panic (st : ActionKv) (e : RecordError)
    (h : loadLoop (st.file.drop st.cursor) st.cursor st.index = .error e) :
    load st = .error e := by
  unfold ActionKv.load
  rw [h]

theorem find_result (st : ActionKv) (target : List Nat) (r : Option (Nat × List Nat))
    (h : findLoop (st.file.drop st.cursor) st.cursor target none = .ok r) :
    findResult st target = .ok r := by
  unfold findResult ActionKv.find
  rw [h]
  rfl

theorem find_panic (st : ActionKv) (target : List Nat) (e : RecordError)
    (h : findLoop (st.file.drop st.cursor) st.cursor target none = .error e) :
    findResult st target = .error e := by
  unfold findResult ActionKv.find
  rw [h]
  rfl

theorem loadLoop_encodeLog (recs : List (List Nat × List Nat)) :
    ∀ (pos : Nat) (idx : Index), recsRepresentable recs →
      loadLoop (encodeLog recs) pos idx = .ok (replayList recs pos idx) := by
  induction recs with
  | nil =>
    intro pos idx _
    rw [show encodeLog [] = [] from rfl]
    rw [loadLoop_eof [] pos idx rfl]
    rfl
  | cons p rest ih =>
    intro pos idx hwf
    obtain ⟨k0, v0⟩ := p
    have hh : k0.length + v0.length < 4294967296 := hwf (k0, v0) (by simp)
    rw [show encodeLog ((k0, v0) :: rest) = encodeRecord k0 v0 ++ encodeLog rest from rfl]
    rw [loadLoop_ok _ _ _ _ _ (process_record_encode k0 v0 (encodeLog rest) hh)]
    have hsub : (encodeRecord k0 v0 ++ encodeLog rest).length - (encodeLog rest).length
        = 12 + k0.length + v0.length := by
      rw [List.length_append, encodeRecord_length]
      omega
    rw [hsub]
    rw [show replayList ((k0, v0) :: rest) pos idx
        = replayList rest (pos + (12 + k0.length + v0.length)) ((k0, pos) :: idx) from rfl]
    exact ih _ _ (fun q hq => hwf q (List.mem_cons_of_mem _ hq))

theorem lookup_replayList (recs : List (List Nat × List Nat)) :
    ∀ (pos : Nat) (idx : Index) (k : List Nat),
      List.lookup k (replayList recs pos idx)
        = (specLatestOffset recs pos k).or (List.lookup k idx) := by
  induction recs with
  | nil => intro pos idx k; simp [replayList, specLatestOffset]
  | cons p rest ih =>
    intro pos idx k
    obtain ⟨k0, v0⟩ := p
    rw [show replayList ((k0, v0) :: rest) pos idx
        = replayList rest (pos + (12 + k0.length + v0.length)) ((k0, pos) :: idx) from rfl]
    rw [ih]
    rw [show specLatestOffset ((k0, v0) :: rest) pos k
        = (match specLatestOffset rest (pos + (12 + k0.length + v0.length)) k with
           | some o => some o
           | none => if k0 = k then some pos else none) from rfl]
    cases hspec : specLatestOffset rest (pos + (12 + k0.length + v0.length)) k with
    | some o => simp
    | none =>
      simp only [Option.none_or]
      rw [List.lookup_cons]
      by_cases hk : k0 = k
      · subst hk
        simp
      · have hbeq : (k == k0) = false := by
          cases hb : k == k0
          · rfl
          · exact absurd (eq_of_beq hb) (fun he => hk he.symm)
        simp [hbeq, hk]

theorem findAccum_or (recs : List (List Nat × List Nat)) :
    ∀ (pos : Nat) (target : List Nat) (found : Option (Nat × List Nat)),
      findAccum recs pos target found = (specLatestPair recs pos target).or found := by
  induction recs with
  | nil => intro pos t found; simp [findAccum, specLatestPair]
  | cons p rest ih =>
    intro pos t found
    obtain ⟨k0, v0⟩ := p
    rw [show findAccum ((k0, v0) :: rest) pos t found
        = findAccum rest (pos + (12 + k0.length + v0.length)) t
            (if k0 = t then some (pos, v0) else found) from rfl]
    rw [ih]
    rw [show specLatestPair ((k0, v0) :: rest) pos t
        = (match specLatestPair rest (pos + (12 + k0.length + v0.length)) t with
           | some r => some r
           | none => if k0 = t then some (pos, v0) else none) from rfl]
    cases hspec : specLatestPair rest (pos + (12 + k0.length + v0.length)) t with
    | some r => simp
    | none =>
      simp only [Option.none_or]
      by_cases hk : k0 = t
      · simp [hk]
      · simp [hk]

theorem findLoop_encodeLog (recs : List (List Nat × List Nat)) :
    ∀ (pos : Nat) (target : List Nat) (found : Option (Nat × List Nat)),
      recsRepresentable recs →
      findLoop (encodeLog recs) pos target found = .ok (findAccum recs pos target found) := by
  induction recs with
  | nil =>
    intro pos t found _
    rw [show encodeLog [] = [] from rfl]
    rw [findLoop_eof [] pos t found rfl]
    rfl
  | cons p rest ih =>
    intro pos t found hwf
    obtain ⟨k0, v0⟩ := p
    have hh : k0.length + v0.length < 4294967296 := hwf (k0, v0) (by simp)
    rw [show encodeLog ((k0, v0) :: rest) = encodeRecord k0 v0 ++ encodeLog rest from rfl]
    rw [findLoop_ok _ _ _ _ _ _ (process_record_encode k0 v0 (encodeLog rest) hh)]
    have hsub : (encodeRecord k0 v0 ++ encodeLog rest).length - (encodeLog rest).length
        = 12 + k0.length + v0.length := by
      rw [List.length_append, encodeRecord_length]
      omega
    rw [hsub]
    rw [show findAccum ((k0, v0) :: rest) pos t found
        = findAccum rest (pos + (12 + k0.length + v0.length)) t
            (if k0 = t then some (pos, v0) else found) from rfl]
    exact ih _ _ _ (fun q hq => hwf q (List.mem_cons_of_mem _ hq))

theorem insert_then_get (st : ActionKv) (key value : List Nat)
    (hcur : st.cursor = st.file.length) (hlen : key.length + value.length < 4294967296) :
    getValue (insert st key value) key = .ok (some value) := by
  have hrec : process_record ((st.file ++ encodeRecord key value).drop st.cursor)
      = .ok (⟨key, value⟩, []) := by
    rw [hcur, List.drop_left]
    have h2 := process_record_encode key value [] hlen
    rwa [List.append_nil] at h2
  have hins : insert st key value =
      { file := st.file ++ encodeRecord key value,
        cursor := (st.file ++ encodeRecord key value).length,
        index := (key, st.cursor) :: st.index } := rfl
  have hlook : List.lookup key ((key, st.cursor) :: st.index) = some st.cursor := by
    rw [List.lookup_cons]
    simp
  rw [hins]
  unfold getValue ActionKv.get get_at
  simp only []
  rw [hlook]
  simp only []
  rw [hrec]
  rfl

/-! ## Claim theorems -/

/-- Claim C1, counterexample: on a Ready store whose file cursor is not
at end of file — here a freshly opened store over an existing one-record
file, with `load` skipped — `insert([2], [3])` followed by `get([2])`
returns the old record's value `[5]`, not `[3]`: `insert` recorded the
pre-write cursor position 0 in the index although the new record was
appended at offset 14. -/
theorem insert_get_cursor_counterexample :
    getValue (insert { file := encodeRecord [0] [5], cursor := 0, index := [] } [2] [3]) [2]
      = .ok (some [5]) ∧
    getValue (insert { file := encodeRecord [0] [5], cursor := 0, index := [] } [2] [3]) [2]
      ≠ .ok (some [3]) := by
  decide

/-- Claim C1, amended: provided the file cursor is at end of file when
`insert` is called (as after opening an empty file, after a completed
`load`, or after a preceding insert) and the combined key/value length
is representable, `insert(key, value)` followed by `get(key)` returns
exactly `value`. -/
theorem insert_get_roundtrip_at_eof (st : ActionKv) (key value : List Nat)
    (hcur : st.cursor = st.file.length)
    (hlen : key.length + value.length < 4294967296) :
    getValue (insert st key value) key = .ok (some value) :=
  insert_then_get st key value hcur hlen

/-- Witness for `insert_get_roundtrip_at_eof`: the empty store, key
`[1]`, value `[2]`. -/
theorem insert_get_roundtrip_at_eof_witness :
    ({ file := [], cursor := 0, index := [] } : ActionKv).cursor
      = ({ file := [], cursor := 0, index := [] } : ActionKv).file.length ∧
    ([1] : List Nat).length + ([2] : List Nat).length < 4294967296 ∧
    getValue (insert { file := [], cursor := 0, index := [] } [1] [2]) [1] = .ok (some [2]) :=
  ⟨rfl, by decide,
    insert_get_roundtrip_at_eof { file := [], cursor := 0, index := [] } [1] [2] rfl (by decide)⟩

/-- Claim C2, evaluation at the failing input: a fully-read record whose
stored checksum (0) differs from the checksum recomputed over its
payload `[0]` (0xFFFFFFFF) drives `process_record` — and through it
`load`, `get` and `find` — into the `corruptionPanic` outcome, which
models the source's `panic!` call: the process is terminated instead of
a DataCorruption error value being returned to the caller. -/
theorem checksum_mismatch_panics :
    process_record [0, 0, 0, 0, 1, 0, 0, 0, 0, 0, 0, 0, 0] = .error .corruptionPanic ∧
    load { file := [0, 0, 0, 0, 1, 0, 0, 0, 0, 0, 0, 0, 0], cursor := 0, index := [] }
      = .error .corruptionPanic ∧
    getValue { file := [0, 0, 0, 0, 1, 0, 0, 0, 0, 0, 0, 0, 0], cursor := 0, index := [([0], 0)] } [0]
      = .error .corruptionPanic ∧
    findResult { file := [0, 0, 0, 0, 1, 0, 0, 0, 0, 0, 0, 0, 0], cursor := 0, index := [] } [0]
      = .error .corruptionPanic := by
  refine ⟨by decide, ?_, by decide, ?_⟩
  · exact load_panic _ _ (loadLoop_panic _ 0 [] _ (by decide) (by decide))
  · exact find_panic _ [0] _ (findLoop_panic _ 0 [0] none _ (by decide) (by decide))

/-- Claim C3, counterexample: with the cursor at 0 over an existing
14-byte one-record file, `insert_but_ignore_index([2], [3])` does append
the new record at the end of the file (offset 14), but returns 0 — the
pre-write cursor position — and `insert` maps the key to that 0, not to
the record's offset 14. -/
theorem insert_offset_counterexample :
    (insert_but_ignore_index { file := encodeRecord [0] [5], cursor := 0, index := [] } [2] [3]).1
      = 0 ∧
    (insert_but_ignore_index { file := encodeRecord [0] [5], cursor := 0, index := [] } [2] [3]).2.file
      = encodeRecord [0] [5] ++ encodeRecord [2] [3] ∧
    (encodeRecord [0] [5]).length = 14 ∧
    List.lookup [2] (insert { file := encodeRecord [0] [5], cursor := 0, index := [] } [2] [3]).index
      = some 0 ∧
    (0 : Nat) ≠ 14 := by
  decide

/-- Claim C3, amended: `insert(key, value)` appends the new record at
the logical end of the file, but returns the file cursor position
captured before the seek to the end, and maps `key` to that returned
position in the index; the returned position equals the new record's
offset only when the cursor was already at end of file. -/
theorem insert_appends_and_returns_precursor (st : ActionKv) (key value : List Nat) :
    (insert_but_ignore_index st key value).2.file = st.file ++ encodeRecord key value ∧
    (insert_but_ignore_index st key value).1 = st.cursor ∧
    (insert st key value).file = st.file ++ encodeRecord key value ∧
    List.lookup key (insert st key value).index = some st.cursor := by
  refine ⟨rfl, rfl, rfl, ?_⟩
  show List.lookup key ((key, st.cursor) :: st.index) = some st.cursor
  rw [List.lookup_cons]
  simp

/-- Claim C4, counterexample: `load` never repositions to offset 0.  On
a store over a one-record log whose cursor was moved to end of file by
`seek_to_end`, `load` succeeds but scans nothing: the index stays empty
although the log contains key `[0]` (whose latest record is at offset
0). -/
theorem load_skips_before_cursor_counterexample :
    openStore (some (encodeRecord [0] [5]))
      = .ok { file := encodeRecord [0] [5], cursor := 0, index := [] } ∧
    seek_to_end { file := encodeRecord [0] [5], cursor := 0, index := [] }
      = (14, { file := encodeRecord [0] [5], cursor := 14, index := [] }) ∧
    load { file := encodeRecord [0] [5], cursor := 14, index := [] }
      = .ok { file := encodeRecord [0] [5], cursor := 14, index := [] } ∧
    encodeLog [([0], [5])] = encodeRecord [0] [5] ∧
    specLatestOffset [([0], [5])] 0 [0] = some 0 ∧
    List.lookup [0] ({ file := encodeRecord [0] [5], cursor := 14, index := [] } : ActionKv).index
      = none := by
  refine ⟨by decide, by decide, ?_, by decide, by decide, by decide⟩
  exact load_result _ [] (loadLoop_eof _ 14 [] (by decide))

/-- Claim C4, amended: `load` scans from the current cursor position
(which is byte 0 on a freshly opened store); after a successful `load`
of a freshly opened store over a well-formed log, the index maps every
key occurring in the log to the offset of that key's last record and
contains no other entries (its lookup agrees everywhere with the
spec-side latest-record-per-key view). -/
theorem load_from_start_rebuilds_latest_index (recs : List (List Nat × List Nat))
    (hwf : recsRepresentable recs) :
    ∃ st', load { file := encodeLog recs, cursor := 0, index := [] } = .ok st' ∧
      st'.file = encodeLog recs ∧ st'.cursor = (encodeLog recs).length ∧
      ∀ k, List.lookup k st'.index = specLatestOffset recs 0 k := by
  refine ⟨⟨encodeLog recs, (encodeLog recs).length, replayList recs 0 []⟩, ?_, rfl, rfl, ?_⟩
  · have hl := loadLoop_encodeLog recs 0 [] hwf
    simp only [ActionKv.load]
    rw [List.drop_zero, hl]
  · intro k
    rw [lookup_replayList]
    simp

/-- Witness for `load_from_start_rebuilds_latest_index`: a two-record
log where the second record supersedes the first. -/
theorem load_from_start_rebuilds_latest_index_witness :
    recsRepresentable [([1], [2]), ([1], [3])] ∧
    (∃ st', load { file := encodeLog [([1], [2]), ([1], [3])], cursor := 0, index := [] }
        = .ok st' ∧
      st'.file = encodeLog [([1], [2]), ([1], [3])] ∧
      st'.cursor = (encodeLog [([1], [2]), ([1], [3])]).length ∧
      ∀ k, List.lookup k st'.index = specLatestOffset [([1], [2]), ([1], [3])] 0 k) :=
  ⟨by decide, load_from_start_rebuilds_latest_index _ (by decide)⟩

/-- Claim C5, counterexample: after inserting value `[10]` then `[11]`
under key `[1]` into an initially empty store, `get` returns `[11]` but
`find` returns `None`: the scan starts at the current cursor, which the
inserts left at end of file, so scan and index disagree, contradicting
the claim that `find` scans the entire log from byte 0 and agrees with
`get`. -/
theorem find_after_insert_counterexample :
    getValue (insert (insert { file := [], cursor := 0, index := [] } [1] [10]) [1] [11]) [1]
      = .ok (some [11]) ∧
    findResult (insert (insert { file := [], cursor := 0, index := [] } [1] [10]) [1] [11]) [1]
      = .ok none := by
  refine ⟨by decide, ?_⟩
  exact find_result _ [1] none (findLoop_eof _ _ [1] none (by decide))

/-- Claim C5, amended: `find(key)` scans from the current cursor
position to end of file and returns the offset and value of the last
matching record in that range; when the cursor is at byte 0 (e.g. on a
freshly opened store) it scans the whole log and returns the spec-side
latest matching record, regardless of the index contents. -/
theorem find_from_start_returns_latest (recs : List (List Nat × List Nat)) (idx : Index)
    (target : List Nat) (hwf : recsRepresentable recs) :
    findResult { file := encodeLog recs, cursor := 0, index := idx } target
      = .ok (specLatestPair recs 0 target) := by
  have hf := findLoop_encodeLog recs 0 target none hwf
  simp only [findResult, ActionKv.find]
  rw [List.drop_zero, hf, findAccum_or]
  rw [Option.or_none]
  rfl

/-- Witness for `find_from_start_returns_latest`: a three-record log
with two records for the target key. -/
theorem find_from_start_returns_latest_witness :
    recsRepresentable [([1], [2]), ([3], [4]), ([1], [5])] ∧
    findResult { file := encodeLog [([1], [2]), ([3], [4]), ([1], [5])], cursor := 0, index := [] }
        [1]
      = .ok (specLatestPair [([1], [2]), ([3], [4]), ([1], [5])] 0 [1]) :=
  ⟨by decide, find_from_start_returns_latest _ [] [1] (by decide)⟩

/-- Claim C6, evaluation at the failing input: a log consisting of one
complete record followed by a complete 12-byte header (declaring
key_len 1, value_len 1) with only one payload byte makes `load` panic
via the checksum check (the truncated payload's checksum cannot match),
instead of stopping gracefully; whereas the same log without the tail,
or with a partial (3-byte) header tail, loads fine with the same
one-entry index. -/
theorem truncated_payload_panics :
    load { file := encodeRecord [1] [2] ++ (u32leBytes (crc32cksum [7, 8]) ++ [1, 0, 0, 0, 1, 0, 0, 0, 7]), cursor := 0, index := [] }
      = .error .corruptionPanic ∧
    load { file := encodeRecord [1] [2], cursor := 0, index := [] }
      = .ok { file := encodeRecord [1] [2], cursor := 14, index := [([1], 0)] } ∧
    load { file := encodeRecord [1] [2] ++ [7, 7, 7], cursor := 0, index := [] }
      = .ok { file := encodeRecord [1] [2] ++ [7, 7, 7], cursor := 17, index := [([1], 0)] } := by
  refine ⟨?_, ?_, ?_⟩
  · refine load_panic _ _ ?_
    rw [List.drop_zero]
    have h1 : process_record (encodeRecord [1] [2]
          ++ (u32leBytes (crc32cksum [7, 8]) ++ [1, 0, 0, 0, 1, 0, 0, 0, 7]))
        = .ok (⟨[1], [2]⟩, u32leBytes (crc32cksum [7, 8]) ++ [1, 0, 0, 0, 1, 0, 0, 0, 7]) := by
      decide
    rw [loadLoop_ok _ 0 [] ⟨[1], [2]⟩ _ h1]
    exact loadLoop_panic _ _ _ _ (by decide) (by decide)
  · refine load_result _ [([1], 0)] ?_
    rw [List.drop_zero]
    have h1 : process_record (encodeRecord [1] [2]) = .ok (⟨[1], [2]⟩, []) := by decide
    rw [loadLoop_ok _ 0 [] ⟨[1], [2]⟩ [] h1]
    exact loadLoop_eof [] _ _ rfl
  · refine load_result _ [([1], 0)] ?_
    rw [List.drop_zero]
    have h1 : process_record (encodeRecord [1] [2] ++ [7, 7, 7])
        = .ok (⟨[1], [2]⟩, [7, 7, 7]) := by decide
    rw [loadLoop_ok _ 0 [] ⟨[1], [2]⟩ [7, 7, 7] h1]
    exact loadLoop_eof [7, 7, 7] _ _ (by decide)

/-- Claim C7, counterexample: `open` on a path with no file behind it
does not succeed by creating the file — the source's `OpenOptions` lack
`create(true)` — it fails with the NotFound I/O error. -/
theorem openStore_missing_file_counterexample :
    (¬ ∃ st, openStore none = .ok st) ∧ openStore none = .error .notFound := by
  constructor
  · rintro ⟨st, h⟩
    simp [openStore] at h
  · rfl

/-- Claim C7, amended: `open(path)` succeeds exactly when a file exists
at `path`, opening it with the index empty and no content read, and
fails with an IoError when the file cannot be opened — including when it
does not exist, since no file is created. -/
theorem openStore_requires_existing_file :
    (∀ contents : List Nat,
      openStore (some contents) = .ok { file := contents, cursor := 0, index := [] }) ∧
    openStore none = .error .notFound :=
  ⟨fun _ => rfl, rfl⟩

/-- Claim C8, evaluation at the failing input: when the end-of-file seek
and the two length-field writes fail but the checked operations succeed,
`insert_but_ignore_index` still returns `Ok(0)` — the source discards
the `Result`s of `f.seek(SeekFrom::End(0))` and of the `write_u32` calls
for `key_len` and `value_len` (and, on the read side, of
`read_to_end`), so those I/O failures are silently swallowed rather
than propagated. -/
theorem discarded_write_failure_returns_ok :
    insert_but_ignore_index_trace { seek_current := .ok 0, seek_end := .error .writeFailed, write_checksum := .ok (), write_key_len := .error .writeFailed, write_value_len := .error .writeFailed, write_payload := .ok () }
      = .ok 0 := rfl

/-- Claim C9, counterexample: on a store whose cursor is at 0 while key
`[9]` is indexed at offset 0 (its record holding value `[5]`),
`delete([9])` appends the tombstone at end of file but maps `[9]` to the
pre-write cursor position 0, so the subsequent `get([9])` returns `[5]`,
not the empty value. -/
theorem delete_get_cursor_counterexample :
    getValue (delete { file := encodeRecord [9] [5], cursor := 0, index := [([9], 0)] } [9]) [9]
      = .ok (some [5]) ∧
    getValue (delete { file := encodeRecord [9] [5], cursor := 0, index := [([9], 0)] } [9]) [9]
      ≠ .ok (some []) := by
  decide

/-- Claim C9, amended: `delete(K)` always appends a record with key `K`
and a zero-length value; and provided the file cursor is at end of file
when `delete` is called, a subsequent `get(K)` returns the empty value
(not "not found"). -/
theorem delete_appends_tombstone_get_empty (st : ActionKv) (key : List Nat) :
    (delete st key).file = st.file ++ encodeRecord key [] ∧
    (st.cursor = st.file.length → key.length < 4294967296 →
      getValue (delete st key) key = .ok (some [])) := by
  refine ⟨rfl, fun hcur hlen => ?_⟩
  exact insert_then_get st key [] hcur (by simpa using hlen)

/-- Witness for `delete_appends_tombstone_get_empty`: deleting key `[4]`
on the empty store. -/
theorem delete_appends_tombstone_get_empty_witness :
    (delete { file := [], cursor := 0, index := [] } [4]).file = [] ++ encodeRecord [4] [] ∧
    getValue (delete { file := [], cursor := 0, index := [] } [4]) [4] = .ok (some []) :=
  ⟨(delete_appends_tombstone_get_empty { file := [], cursor := 0, index := [] } [4]).1,
    (delete_appends_tombstone_get_empty { file := [], cursor := 0, index := [] } [4]).2
      rfl (by decide)⟩

/-- Claim C10, confirmed: `get(key)` returns the value of whatever
record decodes at the offset the index stores for `key`, without
comparing the decoded record's key against the queried key — even when
they differ. -/
theorem get_ignores_record_key (st : ActionKv) (k k' v' : List Nat) (p : Nat)
    (rest : List Nat) (hidx : List.lookup k st.index = some p)
    (hrec : process_record (st.file.drop p) = .ok (⟨k', v'⟩, rest))
    (hne : k' ≠ k) :
    getValue st k = .ok (some v') := by
  unfold getValue ActionKv.get get_at
  rw [hidx]
  simp only []
  rw [hrec]
  rfl

/-- Witness for `get_ignores_record_key`: the index maps `[3]` to offset
0, where a record with the different key `[7]` and value `[42]` sits;
`get([3])` returns `[42]`. -/
theorem get_ignores_record_key_witness :
    List.lookup [3] ([([3], 0)] : Index) = some 0 ∧
    process_record (({ file := encodeRecord [7] [42], cursor := 0, index := [([3], 0)] } : ActionKv).file.drop 0)
      = .ok (⟨[7], [42]⟩, []) ∧
    ([7] : List Nat) ≠ [3] ∧
    getValue { file := encodeRecord [7] [42], cursor := 0, index := [([3], 0)] } [3]
      = .ok (some [42]) :=
  ⟨by decide, by decide, by decide,
    get_ignores_record_key { file := encodeRecord [7] [42], cursor := 0, index := [([3], 0)] }
      [3] [7] [42] 0 [] (by decide) (by decide) (by decide)⟩
